import Mathlib

/-!
Verification of the `sqluy` modal editor core (package `editor`, file
`editor.go`) against its natural-language specification.

The Go code is shallowly embedded: the document text is a `List Char`
(Go strings are UTF-8; byte lengths are recovered with `Char.utf8Size`),
spans mirror the Go `span` struct, and the editor state carries exactly
the fields the verified operations read or write.  Grapheme-cluster
segmentation is performed in Go by the external `uniseg` library
(`uniseg.StepString`); it is modelled here as a parameter
`seg : List Char → List (List Char)` returning the clusters of a line in
order, together with the library's contract `SegValid` (the clusters are
nonempty and concatenate back to the line).  Likewise the printable
width of a cluster (`boundaries >> uniseg.ShiftWidth`) is a parameter
`w : List Char → Nat`.  Concrete instantiations (`charSeg`, `unitWidth`)
reproduce uniseg's behaviour on ASCII text and are used for executable
witnesses.  Go operations that can panic (out-of-range slice indexing,
negative slice bounds) are modelled as `Option`-valued functions
returning `none` at exactly the panicking inputs.
-/

namespace Sqluy

/-- The Go `span` struct: one grapheme cluster with its printable width and
its byte width.  The end-of-line sentinel has `runes = []` (Go `nil`). -/
structure Span where
  runes : List Char
  width : Nat
  bytesWidth : Nat
deriving DecidableEq, Repr

/-- The Go `undoStackItem` struct: a `(text, cursor)` snapshot. -/
structure UndoItem where
  text : List Char
  cursor : Nat × Nat
deriving DecidableEq, Repr

/-- Editor modes (`mode.go`). -/
inductive Mode where
  | normal | insert | replace | visual | vline
deriving DecidableEq, Repr

/-- The dispatcher actions relevant to the verified operations
(`action.go`); only identity tests on these constructors are performed
by the embedded code. -/
inductive Action where
  | none | change | delete | yank | visual | visualLine
deriving DecidableEq, Repr

/-- The fields of the Go `Editor` struct read or written by the verified
operations.  Rendering, keymap, motion-index and treesitter fields are
omitted: the verified operations do not read them. -/
structure EditorState where
  text : List Char
  spansPerLines : List (List Span)
  cursor : Nat × Nat
  undoStack : List UndoItem
  undoOffset : Int
  mode : Mode
  pendingAction : Action
  pendingCount : Nat
  tabSize : Nat
deriving DecidableEq, Repr

instance : Inhabited EditorState :=
  ⟨⟨[], [], (0, 0), [], 0, Mode.normal, Action.none, 0, 4⟩⟩

/-- UTF-8 byte length of a character sequence (Go `len(string)`). -/
def utf8Len (l : List Char) : Nat :=
  (l.map Char.utf8Size).sum

/-- Go `strings.Split(text, "\n")`: split on every newline, keeping empty
pieces; the result is never empty. -/
def splitLines (l : List Char) : List (List Char) :=
  match l with
  | [] => [[]]
  | c :: rest =>
    if c = '\n' then [] :: splitLines rest
    else
      match splitLines rest with
      | [] => [[c]]
      | h :: t => (c :: h) :: t

/-- Join lines with newlines: the inverse of `splitLines`, and also the
shape of the `// write right` loop of `Editor.ReplaceText` (each line but
the last is followed by a newline). -/
def joinNl (ls : List (List Char)) : List Char :=
  match ls with
  | [] => []
  | [l] => l
  | l :: rest => l ++ '\n' :: joinNl rest

theorem splitLines_ne_nil (l : List Char) : splitLines l ≠ [] := by
  induction l with
  | nil => simp [splitLines]
  | cons c rest ih =>
    simp only [splitLines]
    split
    · simp
    · rcases h : splitLines rest with _ | ⟨h', t'⟩ <;> simp

theorem joinNl_cons_cons (a b : List Char) (t : List (List Char)) :
    joinNl (a :: b :: t) = a ++ '\n' :: joinNl (b :: t) := rfl

theorem joinNl_cons (a : List Char) (t : List (List Char)) (ht : t ≠ []) :
    joinNl (a :: t) = a ++ '\n' :: joinNl t := by
  cases t with
  | nil => exact absurd rfl ht
  | cons b t' => rfl

theorem joinNl_splitLines (l : List Char) : joinNl (splitLines l) = l := by
  induction l with
  | nil => rfl
  | cons c rest ih =>
    simp only [splitLines]
    split
    · rename_i hc
      rw [joinNl_cons _ _ (splitLines_ne_nil rest), ih, hc]
      rfl
    · rcases h : splitLines rest with _ | ⟨h', t'⟩
      · exact absurd h (splitLines_ne_nil rest)
      · rw [h] at ih
        cases t' with
        | nil =>
          simp only [joinNl] at ih ⊢
          simp [ih]
        | cons x xs =>
          rw [joinNl_cons_cons] at ih ⊢
          simpa using ih

/-- Contract of `uniseg.StepString` iteration over one line: the produced
grapheme clusters are nonempty and concatenate back to the line. -/
def SegValid (seg : List Char → List (List Char)) : Prop :=
  ∀ l, ((seg l).flatten = l) ∧ (∀ c ∈ seg l, c ≠ [])

/-- One span of `Editor.SetText`'s segmentation loop: printable width from
the width function (a tab gets the configured tab width), and
`bytesWidth` from `utf8.DecodeRuneInString(cluster)` — the byte size of
the FIRST rune of the cluster only. -/
def mkSpan (tabSize : Nat) (w : List Char → Nat) (cluster : List Char) : Span :=
  { runes := cluster
    width := if cluster = ['\t'] then tabSize else w cluster
    bytesWidth :=
      match cluster with
      | [] => 0
      | c :: _ => c.utf8Size }

/-- The end-of-line sentinel appended by `Editor.SetText`
(`spans[j] = span{runes: nil, width: 1}`; `bytesWidth` keeps its zero
value). -/
def sentinelSpan : Span := ⟨[], 1, 0⟩

/-- Per-line segmentation of `Editor.SetText`: one span per grapheme
cluster, in order, followed by exactly one sentinel span.  (The Go code
preallocates `uniseg.GraphemeClusterCount(line)+1` slots and fills them
by iterating `uniseg.StepString`; the two uniseg functions agree on the
cluster count.) -/
def segmentLine (seg : List Char → List (List Char)) (tabSize : Nat)
    (w : List Char → Nat) (line : List Char) : List Span :=
  (seg line).map (mkSpan tabSize w) ++ [sentinelSpan]

/-- Concrete segmentation: every character is its own cluster.  This is
uniseg's behaviour on ASCII text, used for executable witnesses. -/
def charSeg : List Char → List (List Char) := fun l => l.map (fun c => [c])

/-- Concrete width function: every cluster is one cell wide (uniseg's
behaviour on printable ASCII). -/
def unitWidth : List Char → Nat := fun _ => 1

theorem charSeg_valid : SegValid charSeg := by
  intro l
  constructor
  · induction l with
    | nil => rfl
    | cons c rest ih => simpa [charSeg] using ih
  · intro c hc
    simp only [charSeg, List.mem_map] at hc
    obtain ⟨x, _, hx⟩ := hc
    simp [← hx]

/-! ### Go slice semantics

Go slicing `a[:k]` / `a[k:]` / `a[lo:hi]` panics when the bounds exceed
the slice length (all spans and stacks here are freshly `make`d, so
capacity equals length); a panicking operation is modelled as `none`. -/

/-- Go `a[:k]`. -/
def goTake (l : List α) (k : Nat) : Option (List α) :=
  if k ≤ l.length then some (l.take k) else none

/-- Go `a[k:]`. -/
def goDrop (l : List α) (k : Nat) : Option (List α) :=
  if k ≤ l.length then some (l.drop k) else none

/-- Go `a[lo:hi]`. -/
def goSlice (l : List α) (lo hi : Nat) : Option (List α) :=
  if lo ≤ hi ∧ hi ≤ l.length then some ((l.take hi).drop lo) else none

/-- Go `Editor.getActionCount`: `max(1, pendingCount)` (written in Go as
`n := 1 + pendingCount; if pendingCount > 0 { n-- }`). -/
def getActionCount (s : EditorState) : Nat :=
  let n := 1 + s.pendingCount
  if s.pendingCount > 0 then n - 1 else n

/-- The column-search loop of `Editor.GetLineCursor`: walk the target
row's spans, stopping at the sentinel or once the accumulated printable
width would exceed the current row width; returns the landing column. -/
def scanCols (spans : List Span) (cur : Nat) (x : Nat) (acc : Nat) : Nat :=
  match spans with
  | [] => x
  | sp :: rest =>
    if sp.runes = [] then x
    else if acc + sp.width > cur then x
    else scanCols rest cur (x + 1) (acc + sp.width)

/-- Go `Editor.GetLineCursor(n)`: clamp the target row `n` into range,
measure the printable width of the current cursor prefix
(`spansPerLines[cursor[0]][:cursor[1]]` — panics when the raw cursor is
out of range), then walk the target row up to
`len(spans)-2+blockOffset` columns.  `blockOffset` is 1 in
Insert/Visual/VLine mode or under a pending visual operator. -/
def clampRow (rows : Nat) (n : Int) : Int :=
  if (if n < 0 then 0 else n) > (rows : Int) - 1 then (rows : Int) - 1
  else (if n < 0 then 0 else n)

/-- The Go `blockOffset` of `Editor.GetLineCursor`: 1 when the sentinel
slot is reachable (Insert/Visual/VLine mode or a pending visual
operator), else 0. -/
def blockOffsetOf (md : Mode) (pa : Action) : Int :=
  if md = Mode.insert ∨ md = Mode.vline ∨ md = Mode.visual ∨
     pa = Action.visual ∨ pa = Action.visualLine then 1 else 0

/-- The Go `maxOffset` of `Editor.GetLineCursor`:
`len(targetRowSpans) - 2 + blockOffset`, clamped at 0. -/
def maxColOffset (rowLen : Nat) (b : Int) : Nat :=
  if (rowLen : Int) - 2 + b < 0 then 0 else ((rowLen : Int) - 2 + b).toNat

def getLineCursor (spl : List (List Span)) (md : Mode) (pa : Action)
    (cursor : Nat × Nat) (n : Int) : Option (Nat × Nat) :=
  match spl[cursor.1]? with
  | none => none
  | some curRow =>
    match goTake curRow cursor.2 with
    | none => none
    | some pre =>
      if clampRow spl.length n < 0 then none
      else
        match spl[(clampRow spl.length n).toNat]? with
        | none => none
        | some targetRow =>
          some ((clampRow spl.length n).toNat,
            scanCols
              (targetRow.take
                (maxColOffset targetRow.length (blockOffsetOf md pa)))
              ((pre.map (·.width)).sum) 0 0)

/-- Go `Editor.SetText(text, cursor)` restricted to the fields the
verified operations read: re-segment every line, set the text and the
raw cursor, then normalize the cursor with `MoveCursorToLine(cursor[0])`
(edit-generation bump, background motion-index workers and treesitter
highlighting have no bearing on the verified operations and are
omitted; one-line mode is not exercised by the claims). -/
def setText (seg : List Char → List (List Char)) (w : List Char → Nat)
    (s : EditorState) (text : List Char) (cursor : Nat × Nat) :
    Option EditorState :=
  match getLineCursor ((splitLines text).map (segmentLine seg s.tabSize w))
      s.mode s.pendingAction cursor cursor.1 with
  | none => none
  | some c =>
    some { s with
      text := text
      spansPerLines := (splitLines text).map (segmentLine seg s.tabSize w)
      cursor := c }

/-- Go `Editor.MoveCursorTo(to)`: set the raw cursor, then normalize it
onto its own row. -/
def moveCursorTo (s : EditorState) (tgt : Nat × Nat) : Option EditorState :=
  match getLineCursor s.spansPerLines s.mode s.pendingAction tgt tgt.1 with
  | none => none
  | some c => some { s with cursor := c }

/-- Go `Editor.GetRightCursor`: same row, column advanced by the
effective count — with no bound check. -/
def getRightCursor (s : EditorState) : Nat × Nat :=
  (s.cursor.1, s.cursor.2 + getActionCount s)

/-- Go `Editor.MoveCursorRight`. -/
def moveCursorRight (s : EditorState) : Option EditorState :=
  moveCursorTo s (getRightCursor s)

/-- Go `Editor.GetLeftCursor`: column moved left by the effective count,
clamped at 0; a cursor already at column 0 is returned unchanged. -/
def getLeftCursor (s : EditorState) : Nat × Nat :=
  if s.cursor.2 < 1 then s.cursor
  else
    let n := getActionCount s
    (s.cursor.1, s.cursor.2 - n)

/-- The truncation bound `maxUndoOffset` of `Editor.SaveChanges`:
`undoOffset + 1` clamped from above by the stack length. -/
def saveChangesBound (s : EditorState) : Int :=
  if s.undoOffset + 1 > (s.undoStack.length : Int) then (s.undoStack.length : Int)
  else s.undoOffset + 1

/-- Go `Editor.SaveChanges`: truncate the stack to `undoOffset+1` entries
(clamped from above by the stack length; a negative bound panics), push
the current `(text, cursor)` snapshot and point `undoOffset` at it. -/
def saveChanges (s : EditorState) : Option EditorState :=
  if saveChangesBound s < 0 then none
  else some { s with
    undoStack := s.undoStack.take (saveChangesBound s).toNat ++
      [⟨s.text, (s.cursor.1, s.cursor.2)⟩]
    undoOffset := saveChangesBound s }

/-- The stack index `n` computed by `Editor.Undo`:
`undoOffset - count + 1`, clamped at 0. -/
def undoTarget (s : EditorState) : Int :=
  if s.undoOffset - (getActionCount s : Int) + 1 < 0 then 0
  else s.undoOffset - (getActionCount s : Int) + 1

/-- Go `Editor.Undo`: no-op on an empty stack or a negative offset;
otherwise restore the snapshot at `undoOffset - count + 1` (clamped at
0) and point `undoOffset` one below it. -/
def undo (seg : List Char → List (List Char)) (w : List Char → Nat)
    (s : EditorState) : Option EditorState :=
  if s.undoStack.length < 1 then some s
  else if s.undoOffset < 0 then some s
  else
    match s.undoStack[(undoTarget s).toNat]? with
    | none => none
    | some u =>
      setText seg w { s with undoOffset := undoTarget s - 1 } u.text u.cursor

/-- The stack index `n` computed by `Editor.Redo`:
`count + undoOffset + 1`, clamped at the top of the stack. -/
def redoTarget (s : EditorState) : Int :=
  if (getActionCount s : Int) + s.undoOffset + 1 > (s.undoStack.length : Int) - 1
  then (s.undoStack.length : Int) - 1
  else (getActionCount s : Int) + s.undoOffset + 1

/-- Go `Editor.Redo`: no-op on an empty stack or when `undoOffset+2`
passes the top; otherwise restore the snapshot at
`count + undoOffset + 1` (clamped at the top, a negative index panics)
and point `undoOffset` one below it. -/
def redo (seg : List Char → List (List Char)) (w : List Char → Nat)
    (s : EditorState) : Option EditorState :=
  if s.undoStack.length < 1 then some s
  else if s.undoOffset + 2 > (s.undoStack.length : Int) - 1 then some s
  else if redoTarget s < 0 then none
  else
    match s.undoStack[(redoTarget s).toNat]? with
    | none => none
    | some u =>
      setText seg w { s with undoOffset := redoTarget s - 1 } u.text u.cursor

/-- The row-major cursor order used by `ReplaceText`, `GetText` and the
operators to normalize `(from, until)` pairs. -/
def cursorLe (a b : Nat × Nat) : Prop :=
  a.1 < b.1 ∨ (a.1 = b.1 ∧ a.2 ≤ b.2)

instance (a b : Nat × Nat) : Decidable (cursorLe a b) := by
  unfold cursorLe; infer_instance

/-- The swap guard of `ReplaceText`/`GetText`:
`from[0] > until[0] || from[0] == until[0] && from[1] > until[1]`. -/
def cursorSwap (fr un : Nat × Nat) : Bool :=
  decide (fr.1 > un.1 ∨ (fr.1 = un.1 ∧ fr.2 > un.2))

/-- The new document built by `Editor.ReplaceText(s, from, until)` (after
normalization): the lines before `from`, each with its newline; the
clusters of the `from` row before `from[1]`; the inserted text; the
clusters of the `until` row from `until[1]` on (so the span at `until`
is kept — `until` is exclusive); a newline unless `until` is on the last
line; then the remaining lines joined with newlines. -/
def buildReplace (s : EditorState) (ins : List Char) (fr un : Nat × Nat) :
    Option (List Char) := do
  let lines := splitLines s.text
  let left ← goTake lines fr.1
  let fromRow ← s.spansPerLines[fr.1]?
  let pre ← goTake fromRow fr.2
  let untilRow ← s.spansPerLines[un.1]?
  let suf ← goDrop untilRow un.2
  some ((left.map (· ++ ['\n'])).flatten
        ++ (pre.map (·.runes)).flatten
        ++ ins
        ++ (suf.map (·.runes)).flatten
        ++ (if (un.1 : Int) < (lines.length : Int) - 1 then ['\n'] else [])
        ++ joinNl (lines.drop (un.1 + 1)))

/-- Go `Editor.ReplaceText(s, from, until)`: normalize the cursor pair,
build the new document, snapshot the old state with `SaveChanges`, then
`SetText` the new document with the cursor at `from`. -/
def replaceText (seg : List Char → List (List Char)) (w : List Char → Nat)
    (s : EditorState) (ins : List Char) (fr un : Nat × Nat) :
    Option EditorState :=
  match buildReplace s ins (if cursorSwap fr un then un else fr)
      (if cursorSwap fr un then fr else un) with
  | none => none
  | some b =>
    match saveChanges s with
    | none => none
    | some s1 => setText seg w s1 b (if cursorSwap fr un then un else fr)

/-- Text of one span as read back by `Editor.GetText`: the sentinel
(`runes == nil`) reads as a newline, any other span as its cluster. -/
def spanText (sp : Span) : List Char :=
  if sp.runes = [] then ['\n'] else sp.runes

/-- Concatenated `spanText` of a span list. -/
def rowText (spans : List Span) : List Char :=
  (spans.map spanText).flatten

/-- The tail rows of `Editor.GetText`'s loop: middle rows contribute every
span (the sentinel reads as a newline); the final row contributes only
the spans at columns `≤ u`. -/
def getTextTail (lns : List (List Span)) (u : Nat) : List Char :=
  match lns with
  | [] => []
  | [row] => rowText (row.take (u + 1))
  | row :: rest => rowText row ++ getTextTail rest u

/-- `Editor.GetText`'s row loop: on the first row only columns `≥ f`
count, on the last row only columns `≤ u` (both filters apply when the
range is a single row). -/
def getTextRows (lns : List (List Span)) (f u : Nat) : List Char :=
  match lns with
  | [] => []
  | [row] => rowText ((row.drop f).take (u + 1 - f))
  | row :: rest => rowText (row.drop f) ++ getTextTail rest u

/-- Go `Editor.GetText(from, until)`: normalize the pair, slice the rows
`spansPerLines[from[0] : until[0]+1]` and read them back; the span at
`until[1]` on the last row is included (`until` is inclusive). -/
def getText (s : EditorState) (fr un : Nat × Nat) : Option (List Char) :=
  let p := if cursorSwap fr un then (un, fr) else (fr, un)
  match goSlice s.spansPerLines p.1.1 (p.2.1 + 1) with
  | none => none
  | some lns => some (getTextRows lns p.1.2 p.2.2)

/-- The `(from, until)` range selected by `Editor.DeleteLine`: normally the
start of the cursor's line to the start of the line below; on the last
line instead from the end of the line above (or the line start on a
one-line document) to the last line's sentinel. -/
def deleteLineRange (s : EditorState) : Option ((Nat × Nat) × (Nat × Nat)) :=
  if s.cursor.1 = s.spansPerLines.length - 1 then
    match s.spansPerLines[s.cursor.1]? with
    | none => none
    | some cursorRow =>
      if s.cursor.1 ≠ 0 then
        match s.spansPerLines[s.cursor.1 - 1]? with
        | none => none
        | some aboveRow =>
          some ((s.cursor.1 - 1, aboveRow.length - 1),
                (s.cursor.1, cursorRow.length - 1))
      else some ((s.cursor.1, 0), (s.cursor.1, cursorRow.length - 1))
  else some ((s.cursor.1, 0), (s.cursor.1 + 1, 0))

/-- Go `Editor.DeleteLine`: no-op on a row-less structure; otherwise
delete the selected range with `ReplaceText` and run the
`SaveChanges` + `undoOffset--` coalescing step. -/
def deleteLine (seg : List Char → List (List Char)) (w : List Char → Nat)
    (s : EditorState) : Option EditorState :=
  if s.spansPerLines.length < 1 then some s
  else
    match deleteLineRange s with
    | none => none
    | some p =>
      match replaceText seg w s [] p.1 p.2 with
      | none => none
      | some s1 =>
        match saveChanges s1 with
        | none => none
        | some s2 => some { s2 with undoOffset := s2.undoOffset - 1 }

/-- The Insert-mode rune path of `Editor.InputHandler`
(`case tcell.KeyRune`): `ReplaceText(rune, cursor, cursor)`,
`MoveCursorRight()`, `SaveChanges()`, `undoOffset--`. -/
def insertModeRune (seg : List Char → List (List Char)) (w : List Char → Nat)
    (s : EditorState) (r : Char) : Option EditorState :=
  match replaceText seg w s [r] s.cursor s.cursor with
  | none => none
  | some s1 =>
    match moveCursorRight s1 with
    | none => none
    | some s2 =>
      match saveChanges s2 with
      | none => none
      | some s3 => some { s3 with undoOffset := s3.undoOffset - 1 }

/-- Iterated Insert-mode rune insertion. -/
def insertRunes (seg : List Char → List (List Char)) (w : List Char → Nat)
    (s : EditorState) : List Char → Option EditorState
  | [] => some s
  | r :: rs =>
    match insertModeRune seg w s r with
    | none => none
    | some s' => insertRunes seg w s' rs

/-- The Insert-mode Esc path of `Editor.InputHandler`
(`case tcell.KeyEsc`): back to Normal mode, and a cursor sitting on the
end-of-line sentinel is rewound one column with `MoveCursorLeft`. -/
def escapeInsert (s : EditorState) : Option EditorState :=
  match s.spansPerLines[s.cursor.1]? with
  | none => none
  | some row =>
    if s.cursor.2 = row.length - 1 then
      some { s with
        mode := Mode.normal,
        cursor := getLeftCursor { s with mode := Mode.normal } }
    else some { s with mode := Mode.normal }

/-- The scan loop of `Editor.GetNextMotionCursor`: entries on earlier
rows are skipped; reaching an entry on a later row resets the column
threshold to `-1` (for that entry and all following ones); the first
entry whose start column beats the threshold is returned by position. -/
def nextScan (l : List (Nat × Nat × Nat)) (i : Nat) (row col : Int) :
    Option Nat :=
  match l with
  | [] => none
  | t :: rest =>
    if (t.1 : Int) < row then nextScan rest (i + 1) row col
    else
      let col' := if (t.1 : Int) > row then (-1 : Int) else col
      if (t.2.1 : Int) > col' then some i
      else nextScan rest (i + 1) row col'

/-- Go `Editor.GetNextMotionCursor(m, n, cursor, inclusive)` with the
motion index `motionIndexes[m]` passed explicitly (`none` models a Go
`nil` index).  A one-entry index returns its entry unconditionally; an
`inclusive` call lowers the column threshold by one; when the scan
fails, only a kind lowercasing to `n` wraps around to the start of the
index. -/
def getNextMotionCursor (idx : Option (List (Nat × Nat × Nat))) (m : Char)
    (n : Int) (cursor : Int × Int) (inclusive : Bool) : (Int × Int) × Bool :=
  match idx with
  | none => (cursor, false)
  | some l =>
    if l.length = 1 then
      ((((l.getD 0 (0, 0, 0)).1 : Int), ((l.getD 0 (0, 0, 0)).2.1 : Int)), true)
    else
      match nextScan l 0 cursor.1
          (if inclusive then cursor.2 - 1 else cursor.2) with
      | some i =>
        ((((l.getD ((i + ((if n < 1 then 1 else n) - 1).toNat) % l.length)
              (0, 0, 0)).1 : Int),
          ((l.getD ((i + ((if n < 1 then 1 else n) - 1).toNat) % l.length)
              (0, 0, 0)).2.1 : Int)), true)
      | none =>
        if m.toLower ≠ 'n' then (cursor, false)
        else
          ((((l.getD (((if n < 1 then 1 else n) - 1).toNat % l.length)
                (0, 0, 0)).1 : Int),
            ((l.getD (((if n < 1 then 1 else n) - 1).toNat % l.length)
                (0, 0, 0)).2.1 : Int)), true)

/-! ### Well-formedness -/

/-- A state is well-formed for `(seg, w)` when its span structure is the
segmentation of its text — exactly what `SetText` establishes. -/
def WF (seg : List Char → List (List Char)) (w : List Char → Nat)
    (s : EditorState) : Prop :=
  s.spansPerLines = (splitLines s.text).map (segmentLine seg s.tabSize w)

/-- A convenient builder for concrete ASCII states (one char per
cluster, unit widths), mirroring a `SetText`-fresh editor. -/
def mkState (t : List Char) (cur : Nat × Nat) (md : Mode) (pc : Nat) :
    EditorState :=
  { text := t
    spansPerLines := (splitLines t).map (segmentLine charSeg 4 unitWidth)
    cursor := cur
    undoStack := []
    undoOffset := 0
    mode := md
    pendingAction := Action.none
    pendingCount := pc
    tabSize := 4 }

/-! ### Helper lemmas -/

theorem segValid_nil {seg : List Char → List (List Char)}
    (hseg : SegValid seg) : seg [] = [] := by
  obtain ⟨hjoin, hne⟩ := hseg []
  cases h : seg [] with
  | nil => rfl
  | cons c rest =>
    rw [h] at hjoin hne
    have hc : c ≠ [] := hne c (List.mem_cons_self ..)
    cases c with
    | nil => exact absurd rfl hc
    | cons a as => simp at hjoin

theorem cursorSwap_self (c : Nat × Nat) : cursorSwap c c = false := by
  simp [cursorSwap]

theorem cursorSwap_eq_false_of_le {fr un : Nat × Nat} (h : cursorLe fr un) :
    cursorSwap fr un = false := by
  rcases h with h | ⟨h1, h2⟩ <;> simp [cursorSwap] <;> omega

theorem saveChanges_some {s s' : EditorState} (h : saveChanges s = some s') :
    ∃ k : Nat, (k : Int) = min (s.undoOffset + 1) (s.undoStack.length : Int) ∧
      k ≤ s.undoStack.length ∧
      s'.undoStack = s.undoStack.take k ++ [⟨s.text, (s.cursor.1, s.cursor.2)⟩] ∧
      s'.undoOffset = (k : Int) ∧
      s'.text = s.text ∧ s'.spansPerLines = s.spansPerLines ∧
      s'.cursor = s.cursor ∧ s'.mode = s.mode ∧
      s'.pendingAction = s.pendingAction ∧
      s'.pendingCount = s.pendingCount ∧ s'.tabSize = s.tabSize := by
  unfold saveChanges at h
  split at h
  · exact absurd h (by simp)
  · rename_i hm
    injection h with h
    subst h
    refine ⟨(saveChangesBound s).toNat, ?_, ?_, rfl, ?_, rfl, rfl, rfl, rfl,
      rfl, rfl, rfl⟩
    · unfold saveChangesBound at hm ⊢
      rw [Int.min_def]
      split at hm <;> split <;> omega
    · unfold saveChangesBound at hm ⊢
      split at hm <;> omega
    · show saveChangesBound s = _
      omega

theorem saveChanges_isSome {s : EditorState} (hoff : (-1 : Int) ≤ s.undoOffset) :
    ∃ s', saveChanges s = some s' := by
  unfold saveChanges
  split
  · rename_i hm
    unfold saveChangesBound at hm
    split at hm <;> omega
  · exact ⟨_, rfl⟩

theorem setText_some {seg : List Char → List (List Char)} {w : List Char → Nat}
    {s : EditorState} {t : List Char} {c : Nat × Nat} {s' : EditorState}
    (h : setText seg w s t c = some s') :
    s'.text = t ∧ s'.undoStack = s.undoStack ∧ s'.undoOffset = s.undoOffset ∧
    s'.mode = s.mode ∧ s'.pendingAction = s.pendingAction ∧
    s'.pendingCount = s.pendingCount ∧ s'.tabSize = s.tabSize ∧
    s'.spansPerLines = (splitLines t).map (segmentLine seg s.tabSize w) := by
  unfold setText at h
  split at h
  · exact absurd h (by simp)
  · injection h with h
    subst h
    simp

theorem moveCursorTo_some {s : EditorState} {tgt : Nat × Nat} {s' : EditorState}
    (h : moveCursorTo s tgt = some s') :
    s'.text = s.text ∧ s'.spansPerLines = s.spansPerLines ∧
    s'.undoStack = s.undoStack ∧ s'.undoOffset = s.undoOffset ∧
    s'.mode = s.mode ∧ s'.pendingAction = s.pendingAction ∧
    s'.pendingCount = s.pendingCount ∧ s'.tabSize = s.tabSize := by
  unfold moveCursorTo at h
  split at h
  · exact absurd h (by simp)
  · injection h with h
    subst h
    simp

theorem replaceText_some {seg : List Char → List (List Char)} {w : List Char → Nat}
    {s : EditorState} {ins : List Char} {fr un : Nat × Nat} {s' : EditorState}
    (h : replaceText seg w s ins fr un = some s') :
    ∃ b s1, buildReplace s ins (if cursorSwap fr un then un else fr)
        (if cursorSwap fr un then fr else un) = some b ∧
      saveChanges s = some s1 ∧
      setText seg w s1 b (if cursorSwap fr un then un else fr) = some s' := by
  unfold replaceText at h
  split at h <;> rename_i hb
  · exact absurd h (by simp)
  · split at h <;> rename_i hs1
    · exact absurd h (by simp)
    · exact ⟨_, _, hb, hs1, h⟩

theorem escapeInsert_some {s s' : EditorState} (h : escapeInsert s = some s') :
    s'.text = s.text ∧ s'.spansPerLines = s.spansPerLines ∧
    s'.undoStack = s.undoStack ∧ s'.undoOffset = s.undoOffset ∧
    s'.pendingCount = s.pendingCount ∧ s'.tabSize = s.tabSize := by
  unfold escapeInsert at h
  split at h
  · exact absurd h (by simp)
  · split at h <;> injection h with h <;> subst h <;> simp

/-! ### Claim C3 -/

/-- The grapheme segmentation of the one-line text `a + U+0301 COMBINING
ACUTE ACCENT`: uniseg treats a base letter followed by a combining mark
as a single grapheme cluster, so `uniseg.StepString` yields the whole
line as one cluster. -/
def combSeg : List Char → List (List Char) := fun l => [l]

/-- C3.  REFUTED (code bug): `SetText` computes a span's `bytesWidth` with
`utf8.DecodeRuneInString(cluster)`, the byte size of the cluster's FIRST
rune only.  On the line `"á"` (one grapheme cluster, 3 UTF-8
bytes) the produced span has `bytesWidth = 1`, so the sum of
`bytesWidth` over the line's spans is 1, not the line's byte length 3 —
violating the claimed invariant (which the byte-to-column `mapper`
arrays of `buildMotionwIndexes` etc. rely on). -/
theorem c3_bytes_width_counts_first_rune_only :
    ((segmentLine combSeg 4 unitWidth ['a', '\u0301']).map (·.bytesWidth)).sum
      = 1 ∧
    utf8Len ['a', '\u0301'] = 3 ∧ (1 : Nat) ≠ 3 := by
  refine ⟨rfl, rfl, by omega⟩

/-! ### Claim C4 -/

/-- C4.  REFUTED (code bug): `MoveCursorRight` with a pending count of 5
on the one-line document `"ab"` (3 spans including the sentinel) sets
the raw cursor to column 5 and then `GetLineCursor` slices
`spansPerLines[0][:5]`, an out-of-range Go slice expression — a panic,
modelled as `none`.  The motion neither completes nor clamps. -/
theorem c4_move_cursor_right_panics :
    moveCursorRight (mkState ['a', 'b'] (0, 0) Mode.normal 5) = none := by
  rfl

/-! ### Claim C5 -/

theorem nextScan_eq_none {l : List (Nat × Nat × Nat)} {row col : Int}
    (h : ∀ t ∈ l, (t.1 : Int) < row ∨
      ((t.1 : Int) = row ∧ (t.2.1 : Int) ≤ col)) :
    ∀ i, nextScan l i row col = none := by
  induction l with
  | nil => intro i; rfl
  | cons t rest ih =>
    intro i
    rcases h t (List.mem_cons_self ..) with ht | ⟨ht1, ht2⟩
    · rw [nextScan, if_pos ht]
      exact ih (fun x hx => h x (List.mem_cons_of_mem _ hx)) _
    · rw [nextScan, if_neg (by omega)]
      have hgt : ¬((t.1 : Int) > row) := by omega
      rw [if_neg hgt]
      simp only [if_neg hgt]
      rw [if_neg (by omega)]
      exact ih (fun x hx => h x (List.mem_cons_of_mem _ hx)) _

/-- C5, amended.  The search kind `n` wraps: on a populated index with no
entry strictly after the cursor (in row-major order, with the column
threshold lowered by one for an `inclusive` call), `GetNextMotionCursor`
returns the entry at position `(n-1) mod len` — an entry from the start
of the index — with `found = true`.  Every other kind returns the cursor
unchanged with `found = false` — EXCEPT when the index holds exactly one
entry, in which case the function returns that entry with `found = true`
regardless of the cursor (see the counterexample); the claim as frozen
omits that exception. -/
theorem c5_next_motion_wrap_only_for_n (l : List (Nat × Nat × Nat)) (m : Char)
    (n : Int) (cursor : Int × Int) (inclusive : Bool)
    (hlen : l.length ≠ 1)
    (hnone : ∀ t ∈ l, (t.1 : Int) < cursor.1 ∨
      ((t.1 : Int) = cursor.1 ∧
        (t.2.1 : Int) ≤ (if inclusive then cursor.2 - 1 else cursor.2))) :
    (m.toLower ≠ 'n' →
      getNextMotionCursor (some l) m n cursor inclusive = (cursor, false)) ∧
    (m = 'n' → l ≠ [] →
      getNextMotionCursor (some l) m n cursor inclusive =
        ((((l.getD (((if n < 1 then 1 else n) - 1).toNat % l.length)
              (0, 0, 0)).1 : Int),
          ((l.getD (((if n < 1 then 1 else n) - 1).toNat % l.length)
              (0, 0, 0)).2.1 : Int)), true)) := by
  have hscan := nextScan_eq_none hnone 0
  constructor
  · intro hm
    simp only [getNextMotionCursor, if_neg hlen, hscan]
    rw [if_pos hm]
  · intro hm _
    subst hm
    simp only [getNextMotionCursor, if_neg hlen, hscan]
    rw [if_neg (show ¬('n'.toLower ≠ 'n') by decide)]

/-- C5, counterexample to the claim as frozen: a populated `f` index with
exactly one entry, lying before the cursor (no entry lies after the
cursor), from which `GetNextMotionCursor` returns that entry with
`found = true` instead of the cursor unchanged with `found = false`. -/
theorem c5_counterexample :
    getNextMotionCursor (some [(0, 0, 0)]) 'f' 1 (0, 5) false
        = ((0, 0), true) ∧
    ((((0 : Int), (0 : Int)), true) : (Int × Int) × Bool)
        ≠ (((0, 5) : Int × Int), false) := by
  refine ⟨rfl, by simp⟩

/-- C5, witness for the amended theorem at a two-entry `f` index entirely
before the cursor. -/
theorem c5_witness :
    getNextMotionCursor (some [(0, 0, 0), (1, 2, 3)]) 'f' 1 (5, 5) false
      = ((5, 5), false) :=
  (c5_next_motion_wrap_only_for_n [(0, 0, 0), (1, 2, 3)] 'f' 1 (5, 5) false
    (by decide) (by decide)).1 (by decide)

/-! ### Claim C6 -/

/-- C6.  CONFIRMED: for every line and every segmentation satisfying the
uniseg contract, concatenating the clusters of the produced spans
(skipping the sentinel) yields the original line, the span array ends
with the sentinel span (no cluster, width 1), and no other span is
cluster-less. -/
theorem c6_segmentation_round_trip (seg : List Char → List (List Char))
    (hseg : SegValid seg) (tabSize : Nat) (w : List Char → Nat)
    (line : List Char) :
    (((segmentLine seg tabSize w line).dropLast.map (·.runes)).flatten = line) ∧
    (segmentLine seg tabSize w line).getLast? = some sentinelSpan ∧
    ∀ sp ∈ (segmentLine seg tabSize w line).dropLast, sp.runes ≠ [] := by
  obtain ⟨hjoin, hne⟩ := hseg line
  unfold segmentLine
  refine ⟨?_, by rw [List.getLast?_concat], ?_⟩
  · rw [List.dropLast_concat, List.map_map]
    have : ((·.runes) ∘ mkSpan tabSize w) = (id : List Char → List Char) := by
      funext c
      rfl
    rw [this, List.map_id]
    exact hjoin
  · rw [List.dropLast_concat]
    intro sp hsp
    obtain ⟨c, hc, hch⟩ := List.mem_map.mp hsp
    have : sp.runes = c := by rw [← hch]; rfl
    rw [this]
    exact hne c hc

/-- C6, witness: the ASCII line `"ab"` under the per-character
segmentation. -/
theorem c6_witness :
    (((segmentLine charSeg 4 unitWidth ['a', 'b']).dropLast.map
        (·.runes)).flatten = ['a', 'b']) ∧
    (segmentLine charSeg 4 unitWidth ['a', 'b']).getLast? = some sentinelSpan ∧
    ∀ sp ∈ (segmentLine charSeg 4 unitWidth ['a', 'b']).dropLast,
      sp.runes ≠ [] :=
  c6_segmentation_round_trip charSeg charSeg_valid 4 unitWidth ['a', 'b']

/-! ### Claim C9 -/

/-- C9.  CONFIRMED: whenever `SaveChanges` runs (its callers keep
`undoOffset ≥ -1`), afterwards `undoOffset` equals `len(undoStack) - 1`,
the top stack entry is exactly the current `(text, cursor)` pair, and
the new stack is the old one truncated to `undoOffset + 1` entries plus
that snapshot — every entry past the old `undoOffset + 1` is
discarded. -/
theorem c9_save_changes_postcondition (s : EditorState)
    (hoff : (-1 : Int) ≤ s.undoOffset) :
    ∃ s', saveChanges s = some s' ∧
      s'.undoOffset = (s'.undoStack.length : Int) - 1 ∧
      s'.undoStack.getLast? = some ⟨s.text, (s.cursor.1, s.cursor.2)⟩ ∧
      s'.undoStack = s.undoStack.take (s.undoOffset + 1).toNat ++
        [⟨s.text, (s.cursor.1, s.cursor.2)⟩] := by
  obtain ⟨s', hs'⟩ := saveChanges_isSome hoff
  obtain ⟨k, hk, hkle, hstack, hoff', _⟩ := saveChanges_some hs'
  refine ⟨s', hs', ?_, ?_, ?_⟩
  · rw [hstack, hoff']
    simp only [List.length_append, List.length_take, List.length_cons,
      List.length_nil]
    omega
  · rw [hstack]
    exact List.getLast?_concat ..
  · rw [hstack]
    have : s.undoStack.take k = s.undoStack.take (s.undoOffset + 1).toNat := by
      rcases le_or_lt (s.undoOffset + 1) (s.undoStack.length : Int) with hle | hlt
      · have : (k : Int) = s.undoOffset + 1 := by omega
        congr 1
        omega
      · have hk' : k = s.undoStack.length := by omega
        rw [hk', List.take_length, List.take_of_length_le (by omega)]
    rw [this]

/-- C9, witness at a concrete state. -/
theorem c9_witness :
    ∃ s', saveChanges (mkState ['a'] (0, 0) Mode.normal 0) = some s' ∧
      s'.undoOffset = (s'.undoStack.length : Int) - 1 ∧
      s'.undoStack.getLast? =
        some ⟨(mkState ['a'] (0, 0) Mode.normal 0).text,
          ((mkState ['a'] (0, 0) Mode.normal 0).cursor.1,
           (mkState ['a'] (0, 0) Mode.normal 0).cursor.2)⟩ ∧
      s'.undoStack =
        (mkState ['a'] (0, 0) Mode.normal 0).undoStack.take
          ((mkState ['a'] (0, 0) Mode.normal 0).undoOffset + 1).toNat ++
        [⟨(mkState ['a'] (0, 0) Mode.normal 0).text,
          ((mkState ['a'] (0, 0) Mode.normal 0).cursor.1,
           (mkState ['a'] (0, 0) Mode.normal 0).cursor.2)⟩] :=
  c9_save_changes_postcondition (mkState ['a'] (0, 0) Mode.normal 0)
    (by decide)

/-! ### Claim C1 -/

theorem getActionCount_eq_one {s : EditorState} (h : s.pendingCount = 0) :
    getActionCount s = 1 := by
  unfold getActionCount
  rw [h]
  rfl

/-- The undo-stack bookkeeping of one Insert-mode rune: `ReplaceText`'s
inner `SaveChanges` rewrites the top of the stack to the pre-rune
snapshot at some index `k`, the outer `SaveChanges` pushes the post-rune
state above it, and the final decrement leaves `undoOffset = k` pointing
at the pre-rune snapshot — so each rune is one undo step. -/
theorem insertModeRune_some {seg : List Char → List (List Char)}
    {w : List Char → Nat} {s s' : EditorState} {r : Char}
    (h : insertModeRune seg w s r = some s') :
    ∃ s1 s2 s3, replaceText seg w s [r] s.cursor s.cursor = some s1 ∧
      moveCursorRight s1 = some s2 ∧ saveChanges s2 = some s3 ∧
      s' = { s3 with undoOffset := s3.undoOffset - 1 } := by
  unfold insertModeRune at h
  cases hrep : replaceText seg w s [r] s.cursor s.cursor with
  | none =>
    simp only [hrep] at h
    exact absurd h (by simp)
  | some s1 =>
    simp only [hrep] at h
    cases hmv : moveCursorRight s1 with
    | none =>
      simp only [hmv] at h
      exact absurd h (by simp)
    | some s2 =>
      simp only [hmv] at h
      cases hsc : saveChanges s2 with
      | none =>
        simp only [hsc] at h
        exact absurd h (by simp)
      | some s3 =>
        simp only [hsc, Option.some.injEq] at h
        exact ⟨s1, s2, s3, rfl, hmv, hsc, h.symm⟩

/-- The undo-stack bookkeeping of one Insert-mode rune: `ReplaceText`'s
inner `SaveChanges` rewrites the top of the stack to the pre-rune
snapshot at some index `k`, the outer `SaveChanges` pushes the post-rune
state above it, and the final decrement leaves `undoOffset = k` pointing
at the pre-rune snapshot — so each rune is one undo step. -/
theorem insertModeRune_stack_shape {seg : List Char → List (List Char)}
    {w : List Char → Nat} {s s' : EditorState} {r : Char}
    (h : insertModeRune seg w s r = some s') :
    ∃ k : Nat,
      s'.undoOffset = (k : Int) ∧
      s'.undoStack[k]? = some ⟨s.text, (s.cursor.1, s.cursor.2)⟩ ∧
      s'.undoStack.length = k + 2 ∧
      s'.pendingCount = s.pendingCount := by
  obtain ⟨s1, s2, s3, hrep, hmv, hsc, hfin⟩ := insertModeRune_some h
  subst hfin
  obtain ⟨b, sA, hb, hsave, hset⟩ := replaceText_some hrep
  obtain ⟨k, hk, hkle, hstA, hoffA, _, _, _, _, _, hpcA, _⟩ :=
    saveChanges_some hsave
  obtain ⟨_, hst1, hoff1, _, _, hpc1, _, _⟩ := setText_some hset
  unfold moveCursorRight at hmv
  obtain ⟨_, _, hst2, hoff2, _, _, hpc2, _⟩ := moveCursorTo_some hmv
  have hlen1 : s1.undoStack.length = k + 1 := by
    rw [hst1, hstA]
    simp only [List.length_append, List.length_take,
      List.length_cons, List.length_nil]
    omega
  obtain ⟨k2, hk2, _, hst3, hoff3, _, _, _, _, _, hpc3, _⟩ :=
    saveChanges_some hsc
  have hk2' : k2 = k + 1 := by
    rw [hst2, hlen1] at hk2
    rw [hoff2, hoff1, hoffA] at hk2
    omega
  refine ⟨k, ?_, ?_, ?_, ?_⟩
  · show s3.undoOffset - 1 = (k : Int)
    rw [hoff3]
    omega
  · show s3.undoStack[k]? = _
    rw [hst3, hk2', hst2, List.take_of_length_le (by omega), hst1, hstA]
    rw [List.append_assoc]
    rw [List.getElem?_append_right (by
      simp only [List.length_take]
      omega)]
    simp only [List.length_take]
    have hz : k - min k s.undoStack.length = 0 := by omega
    rw [hz]
    rfl
  · show s3.undoStack.length = k + 2
    rw [hst3, hk2', hst2, List.take_of_length_le (by omega)]
    simp only [List.length_append, List.length_cons, List.length_nil, hlen1]
  · show s3.pendingCount = s.pendingCount
    rw [hpc3, hpc2, hpc1, hpcA]

/-- C1, amended.  Insert-mode rune insertions do NOT coalesce: each rune
is its own undo step.  After any number of insert-mode rune insertions,
for the last of which `insertModeRune` took the editor from state `s1`
to state `s2`, pressing Esc and then a single Undo (count 0) restores
the text to its state BEFORE THAT LAST RUNE only (`s1.text`), not the
state before the first of the insertions (see the counterexample). -/
theorem c1_single_undo_reverts_last_rune (seg : List Char → List (List Char))
    (w : List Char → Nat) (s1 s2 s3 s4 : EditorState) (r : Char)
    (hpc : s1.pendingCount = 0)
    (hins : insertModeRune seg w s1 r = some s2)
    (hesc : escapeInsert s2 = some s3)
    (hundo : undo seg w s3 = some s4) :
    s4.text = s1.text := by
  obtain ⟨k, hoff2, hidx2, hlen2, hpc2⟩ := insertModeRune_stack_shape hins
  obtain ⟨htext3, hspl3, hstack3, hoff3, hpc3, _⟩ := escapeInsert_some hesc
  have hlen3 : s3.undoStack.length = k + 2 := by rw [hstack3, hlen2]
  have hoff3' : s3.undoOffset = (k : Int) := by rw [hoff3, hoff2]
  have hac : getActionCount s3 = 1 :=
    getActionCount_eq_one (by rw [hpc3, hpc2, hpc])
  have htgt : undoTarget s3 = (k : Int) := by
    unfold undoTarget
    rw [hac, hoff3']
    norm_num
  unfold undo at hundo
  rw [if_neg (by omega)] at hundo
  rw [if_neg (by rw [hoff3']; omega)] at hundo
  rw [htgt] at hundo
  rw [Int.toNat_natCast] at hundo
  rw [hstack3, hidx2] at hundo
  exact (setText_some hundo).1

/-- The concrete run refuting C1 as frozen: a fresh empty Insert-mode
editor (exactly the state the embedded search prompt starts in), runes
`a` then `b`, Esc, one Undo. -/
def c1Run : Option EditorState :=
  match insertModeRune charSeg unitWidth (mkState [] (0, 0) Mode.insert 0) 'a' with
  | none => none
  | some s1 =>
    match insertModeRune charSeg unitWidth s1 'b' with
    | none => none
    | some s2 =>
      match escapeInsert s2 with
      | none => none
      | some s3 => undo charSeg unitWidth s3

/-- C1, counterexample to the claim as frozen: typing two runes `a`, `b`
in Insert mode from the empty document, pressing Esc and then a single
Undo leaves the text `"a"` — the state before the LAST rune — not the
empty text from before the first rune, so the two insertions did not
form one undoable group. -/
theorem c1_counterexample :
    c1Run.map (·.text) = some ['a'] ∧
    (mkState [] (0, 0) Mode.insert 0).text = [] ∧
    (['a'] : List Char) ≠ [] := by
  refine ⟨rfl, rfl, by simp⟩

/-- First intermediate state of the C1 witness run (after rune `a`). -/
def c1w1 : EditorState :=
  (insertModeRune charSeg unitWidth (mkState [] (0, 0) Mode.insert 0)
    'a').getD default

/-- Second intermediate state of the C1 witness run (after rune `b`). -/
def c1w2 : EditorState :=
  (insertModeRune charSeg unitWidth c1w1 'b').getD default

/-- Third intermediate state of the C1 witness run (after Esc). -/
def c1w3 : EditorState := (escapeInsert c1w2).getD default

/-- Final state of the C1 witness run (after Undo). -/
def c1w4 : EditorState := (undo charSeg unitWidth c1w3).getD default

/-- C1, witness for the amended theorem on the concrete two-rune run. -/
theorem c1_witness : c1w4.text = c1w1.text :=
  c1_single_undo_reverts_last_rune charSeg unitWidth c1w1 c1w2 c1w3 c1w4 'b'
    (by decide) (by decide) (by decide) (by decide)

/-! ### Claim C2 -/

/-- C2, amended.  `Undo(1); Redo(1)` restores the text and cursor exactly
— PROVIDED the pre-Undo state is itself recorded on the undo stack at
index `undoOffset + 1` (as the insert-mode edit path arranges with its
trailing `SaveChanges; undoOffset--`), and the recorded cursor is a
fixed point of `SetText`'s cursor normalization.  After a bare
`ReplaceText` (which snapshots only the PRE-edit state, leaving the
post-edit state unrecorded), `Redo` after `Undo` is a no-op and the
edit is lost — see the counterexample refuting the claim as frozen. -/
theorem c2_undo_redo_identity_when_recorded (seg : List Char → List (List Char))
    (w : List Char → Nat) (s s' s'' : EditorState)
    (hpc : s.pendingCount = 0)
    (hoff : 0 ≤ s.undoOffset)
    (hrec : s.undoStack[(s.undoOffset + 1).toNat]? =
      some ⟨s.text, (s.cursor.1, s.cursor.2)⟩)
    (hclamp : getLineCursor
        ((splitLines s.text).map (segmentLine seg s.tabSize w))
        s.mode s.pendingAction (s.cursor.1, s.cursor.2)
        ((s.cursor.1 : Int)) = some (s.cursor.1, s.cursor.2))
    (hu : undo seg w s = some s')
    (hr : redo seg w s' = some s'') :
    s''.text = s.text ∧ s''.cursor = s.cursor ∧
    s''.undoOffset = s.undoOffset := by
  have hlen : (s.undoOffset + 1).toNat < s.undoStack.length :=
    (List.getElem?_eq_some.mp hrec).1
  have htgt : undoTarget s = s.undoOffset := by
    unfold undoTarget
    rw [getActionCount_eq_one hpc]
    split <;> omega
  unfold undo at hu
  rw [if_neg (by omega), if_neg (by omega), htgt] at hu
  cases hidx : s.undoStack[s.undoOffset.toNat]? with
  | none =>
    simp only [hidx] at hu
    exact absurd hu (by simp)
  | some u =>
    simp only [hidx] at hu
    obtain ⟨hut, hust, huoff, humode, hupa, hupc, hutab, _⟩ := setText_some hu
    simp only at hust huoff hupc humode hupa hutab
    have hlen' : s'.undoStack.length = s.undoStack.length := by rw [hust]
    have htgt2 : redoTarget s' = s.undoOffset + 1 := by
      unfold redoTarget
      rw [getActionCount_eq_one (by rw [hupc, hpc]), huoff, hlen']
      split <;> omega
    unfold redo at hr
    rw [if_neg (by omega), if_neg (by rw [huoff, hlen']; omega),
      if_neg (by rw [htgt2]; omega), htgt2] at hr
    have hidx2 : s'.undoStack[(s.undoOffset + 1).toNat]? =
        some (⟨s.text, (s.cursor.1, s.cursor.2)⟩ : UndoItem) := by
      rw [hust]
      exact hrec
    simp only [hidx2] at hr
    unfold setText at hr
    simp only [hutab, humode, hupa] at hr
    simp only [hclamp, Option.some.injEq] at hr
    refine ⟨?_, ?_, ?_⟩
    · rw [← hr]
    · rw [← hr]
    · rw [← hr]
      simp only
      omega

/-- The concrete run refuting C2 as frozen: over the one-line document
`"ab"` in Normal mode, `ReplaceText("c", (0,0), (0,0))` (one edit, with
its `SaveChanges`) yields `"cab"`; then `Undo(1)` restores `"ab"` and
`Redo(1)` is a no-op, leaving `"ab"`. -/
def c2Run : Option EditorState :=
  match replaceText charSeg unitWidth (mkState ['a', 'b'] (0, 0) Mode.normal 0)
      ['c'] (0, 0) (0, 0) with
  | none => none
  | some s1 =>
    match undo charSeg unitWidth s1 with
    | none => none
    | some s2 => redo charSeg unitWidth s2

/-- C2, counterexample to the claim as frozen: after the single edit the
text is `"cab"`, but `Undo(1); Redo(1)` ends at `"ab"` — `Redo` does not
restore the text that was current before the `Undo`, because the
post-edit state was never pushed on the undo stack. -/
theorem c2_counterexample :
    (replaceText charSeg unitWidth (mkState ['a', 'b'] (0, 0) Mode.normal 0)
        ['c'] (0, 0) (0, 0)).map (·.text) = some ['c', 'a', 'b'] ∧
    c2Run.map (·.text) = some ['a', 'b'] ∧
    (['a', 'b'] : List Char) ≠ ['c', 'a', 'b'] := by
  refine ⟨rfl, rfl, by simp⟩

/-- The pre-Undo state of the C2 witness run: one Insert-mode rune `a`
typed into the empty editor, whose insert path records the post-edit
state on the stack. -/
def c2w1 : EditorState :=
  (insertModeRune charSeg unitWidth (mkState [] (0, 0) Mode.insert 0)
    'a').getD default

/-- The C2 witness state after `Undo(1)`. -/
def c2w2 : EditorState := (undo charSeg unitWidth c2w1).getD default

/-- The C2 witness state after `Redo(1)`. -/
def c2w3 : EditorState := (redo charSeg unitWidth c2w2).getD default

/-- C2, witness for the amended theorem on the concrete one-rune run. -/
theorem c2_witness :
    c2w3.text = c2w1.text ∧ c2w3.cursor = c2w1.cursor ∧
    c2w3.undoOffset = c2w1.undoOffset :=
  c2_undo_redo_identity_when_recorded charSeg unitWidth c2w1 c2w2 c2w3
    (by decide) (by decide) (by decide) (by decide) (by decide) (by decide)

/-! ### Claim C7 -/

theorem rowChars_of_segmentLine {seg : List Char → List (List Char)}
    (hseg : SegValid seg) (ts : Nat) (w : List Char → Nat) (line : List Char) :
    ((segmentLine seg ts w line).map (·.runes)).flatten = line := by
  unfold segmentLine
  rw [List.map_append, List.flatten_append, List.map_map]
  have hcomp : ((·.runes) ∘ mkSpan ts w) = (id : List Char → List Char) := by
    funext c
    rfl
  rw [hcomp, List.map_id]
  simp [sentinelSpan, (hseg line).1]

theorem joinNl_decompose (lines : List (List Char)) (c0 : Nat)
    (line : List Char) (h : lines[c0]? = some line) :
    ((lines.take c0).map (· ++ ['\n'])).flatten ++ line ++
      (if c0 + 1 < lines.length then ['\n'] else []) ++
      joinNl (lines.drop (c0 + 1)) = joinNl lines := by
  induction lines generalizing c0 with
  | nil => simp at h
  | cons l rest ih =>
    cases c0 with
    | zero =>
      simp only [List.getElem?_cons_zero, Option.some.injEq] at h
      subst h
      cases rest with
      | nil => simp [joinNl]
      | cons l2 t =>
        rw [joinNl_cons_cons]
        simp only [List.take_zero, List.map_nil, List.flatten_nil,
          List.nil_append, List.length_cons, List.drop_succ_cons,
          List.drop_zero]
        rw [if_pos (by omega)]
        simp
    | succ c =>
      simp only [List.getElem?_cons_succ] at h
      have hne : rest ≠ [] := by
        intro hnil
        rw [hnil] at h
        simp at h
      rw [List.take_succ_cons, List.map_cons, List.flatten_cons,
        List.drop_succ_cons, joinNl_cons _ _ hne]
      simp only [List.length_cons, Nat.add_lt_add_iff_right]
      conv_rhs => rw [← ih c h]
      simp [List.append_assoc]

theorem getLineCursor_isSome {spl : List (List Span)} (md : Mode) (pa : Action)
    {c : Nat × Nat} {row : List Span}
    (hrow : spl[c.1]? = some row) (hcol : c.2 ≤ row.length) (n : Int) :
    ∃ res, getLineCursor spl md pa c n = some res := by
  have hlt : c.1 < spl.length := (List.getElem?_eq_some.mp hrow).1
  have hcl : 0 ≤ clampRow spl.length n ∧
      clampRow spl.length n ≤ (spl.length : Int) - 1 := by
    unfold clampRow
    split <;> split <;> omega
  have htr : (clampRow spl.length n).toNat < spl.length := by omega
  unfold getLineCursor
  simp only [hrow]
  unfold goTake
  rw [if_pos hcol]
  simp only [if_neg (by omega : ¬(clampRow spl.length n < 0))]
  rw [List.getElem?_eq_getElem htr]
  exact ⟨_, rfl⟩

/-- C7.  CONFIRMED: on a well-formed document, `ReplaceText("", c, c)` at
any valid cursor leaves the document text unchanged (the rebuilt string
splices an empty insertion between the prefix and suffix of the cursor's
own position). -/
theorem c7_replace_empty_identity (seg : List Char → List (List Char))
    (w : List Char → Nat) (s : EditorState) (c : Nat × Nat) (row : List Span)
    (hseg : SegValid seg) (hwf : WF seg w s)
    (hrow : s.spansPerLines[c.1]? = some row) (hcol : c.2 < row.length)
    (hoff : (-1 : Int) ≤ s.undoOffset) :
    ∃ s', replaceText seg w s [] c c = some s' ∧ s'.text = s.text := by
  have hlt : c.1 < s.spansPerLines.length := (List.getElem?_eq_some.mp hrow).1
  have hlines : c.1 < (splitLines s.text).length := by
    rw [hwf, List.length_map] at hlt
    exact hlt
  obtain ⟨line, hline, hrowline⟩ : ∃ line, (splitLines s.text)[c.1]? = some line ∧
      segmentLine seg s.tabSize w line = row := by
    rw [hwf, List.getElem?_map] at hrow
    exact Option.map_eq_some'.mp hrow
  have hb : buildReplace s [] c c = some s.text := by
    have h1 : goTake (splitLines s.text) c.1 =
        some ((splitLines s.text).take c.1) := by
      unfold goTake
      rw [if_pos (by omega)]
    have h3 : goTake row c.2 = some (row.take c.2) := by
      unfold goTake
      rw [if_pos (le_of_lt hcol)]
    have h4 : goDrop row c.2 = some (row.drop c.2) := by
      unfold goDrop
      rw [if_pos (le_of_lt hcol)]
    simp only [buildReplace, h1, hrow, h3, h4, Option.bind_eq_bind,
      Option.some_bind, Option.some.injEq]
    have hsplit : ((row.take c.2).map (·.runes)).flatten ++
        ((row.drop c.2).map (·.runes)).flatten = line := by
      rw [← List.flatten_append, ← List.map_append, List.take_append_drop,
        ← hrowline]
      exact rowChars_of_segmentLine hseg s.tabSize w line
    have hcond : ((c.1 : Int) < ((splitLines s.text).length : Int) - 1) ↔
        (c.1 + 1 < (splitLines s.text).length) := by omega
    simp only [hcond]
    conv_rhs => rw [← joinNl_splitLines s.text,
      ← joinNl_decompose (splitLines s.text) c.1 line hline]
    rw [← hsplit]
    simp [List.append_assoc]
  obtain ⟨s1, hs1⟩ := saveChanges_isSome hoff
  obtain ⟨k, _, _, _, _, _, hspl1, _, _, _, _, htab1⟩ := saveChanges_some hs1
  have hrow1 : ((splitLines s.text).map (segmentLine seg s1.tabSize w))[c.1]? =
      some row := by
    rw [htab1, ← hwf]
    exact hrow
  obtain ⟨res, hglc⟩ :=
    getLineCursor_isSome s1.mode s1.pendingAction hrow1 (le_of_lt hcol)
      ((c.1 : Int))
  unfold replaceText
  simp only [ite_self]
  simp only [hb, hs1]
  unfold setText
  simp only [hglc]
  exact ⟨_, rfl, rfl⟩

/-- C7, witness: the two-line document `"foo\nbar"` at cursor `(1, 1)`. -/
theorem c7_witness :
    ∃ s', replaceText charSeg unitWidth
        (mkState ('f' :: 'o' :: 'o' :: '\n' :: 'b' :: 'a' :: 'r' :: [])
          (1, 1) Mode.normal 0) [] (1, 1)
        (1, 1) = some s' ∧
      s'.text = (mkState ('f' :: 'o' :: 'o' :: '\n' :: 'b' :: 'a' :: 'r' :: [])
        (1, 1) Mode.normal 0).text :=
  c7_replace_empty_identity charSeg unitWidth
    (mkState ('f' :: 'o' :: 'o' :: '\n' :: 'b' :: 'a' :: 'r' :: [])
      (1, 1) Mode.normal 0)
    (1, 1) (segmentLine charSeg 4 unitWidth ('b' :: 'a' :: 'r' :: []))
    charSeg_valid rfl (by decide) (by decide) (by decide)

/-! ### Claim C8 -/

theorem replaceText_of_no_swap {seg : List Char → List (List Char)}
    {w : List Char → Nat} {s : EditorState} {ins : List Char}
    {fr un : Nat × Nat} (hswap : cursorSwap fr un = false) :
    replaceText seg w s ins fr un =
      match buildReplace s ins fr un with
      | none => none
      | some b =>
        match saveChanges s with
        | none => none
        | some s1 => setText seg w s1 b fr := by
  unfold replaceText
  rw [hswap]
  rfl

/-- Normalizing any cursor onto the one-line segmentation of the empty
text lands at the origin: the single row holds only the sentinel, whose
slot is never entered by the column scan. -/
theorem getLineCursor_sentinel (md : Mode) (pa : Action) (n : Int) :
    getLineCursor [[sentinelSpan]] md pa (0, 0) n = some (0, 0) := by
  have hcl : clampRow ([[sentinelSpan]] : List (List Span)).length n = 0 := by
    show clampRow 1 n = 0
    unfold clampRow
    by_cases h : n < 0
    · rw [if_pos h, if_neg (by simp)]
    · rw [if_neg h]
      by_cases h2 : n > ((1 : Nat) : Int) - 1
      · rw [if_pos h2]
        simp
      · rw [if_neg h2]
        omega
  unfold getLineCursor
  rw [hcl]
  simp only [show ([[sentinelSpan]] : List (List Span))[((0 : Nat), (0 : Nat)).1]? =
      some [sentinelSpan] from rfl,
    show goTake [sentinelSpan] ((0 : Nat), (0 : Nat)).2 = some [] from rfl]
  rw [if_neg (by norm_num : ¬((0 : Int) < 0))]
  simp only [show ([[sentinelSpan]] : List (List Span))[(0 : Int).toNat]? =
      some [sentinelSpan] from rfl]
  unfold blockOffsetOf
  split <;> rfl

/-- C8.  CONFIRMED: on a well-formed one-line document, `DeleteLine`
leaves exactly one empty line (never a zero-row document) and moves the
cursor to `(0, 0)`. -/
theorem c8_delete_last_line (seg : List Char → List (List Char))
    (w : List Char → Nat) (s : EditorState)
    (hseg : SegValid seg) (hwf : WF seg w s)
    (hrows : s.spansPerLines.length = 1)
    (hc0 : s.cursor.1 = 0)
    (hoff : (-1 : Int) ≤ s.undoOffset) :
    ∃ s', deleteLine seg w s = some s' ∧ s'.text = [] ∧
      s'.cursor = (0, 0) ∧ s'.spansPerLines.length = 1 := by
  have hlines1 : (splitLines s.text).length = 1 := by
    rw [hwf, List.length_map] at hrows
    exact hrows
  obtain ⟨line, hline⟩ : ∃ line, splitLines s.text = [line] := by
    cases hsp : splitLines s.text with
    | nil =>
      rw [hsp] at hlines1
      simp at hlines1
    | cons a t =>
      cases t with
      | nil => exact ⟨a, rfl⟩
      | cons b t2 =>
        rw [hsp] at hlines1
        simp at hlines1
  have hspl : s.spansPerLines = [segmentLine seg s.tabSize w line] := by
    rw [hwf, hline]
    rfl
  have hrow : s.spansPerLines[(0 : Nat)]? =
      some (segmentLine seg s.tabSize w line) := by
    rw [hspl]
    rfl
  have hrange : deleteLineRange s =
      some ((0, 0), (0, (segmentLine seg s.tabSize w line).length - 1)) := by
    unfold deleteLineRange
    rw [hc0, hrows]
    rw [if_pos rfl]
    simp only [hrow]
    rw [if_neg (by simp)]
  have h1 : goTake (splitLines s.text) 0 = some [] := by
    unfold goTake
    rw [if_pos (Nat.zero_le _)]
    rfl
  have h3 : goTake (segmentLine seg s.tabSize w line) 0 = some [] := by
    unfold goTake
    rw [if_pos (Nat.zero_le _)]
    rfl
  have hdrop : (segmentLine seg s.tabSize w line).drop
      ((segmentLine seg s.tabSize w line).length - 1) = [sentinelSpan] := by
    unfold segmentLine
    have hl : ((seg line).map (mkSpan s.tabSize w) ++ [sentinelSpan]).length - 1
        = ((seg line).map (mkSpan s.tabSize w)).length := by
      simp
    rw [hl, List.drop_left]
  have h4 : goDrop (segmentLine seg s.tabSize w line)
      ((segmentLine seg s.tabSize w line).length - 1) =
      some [sentinelSpan] := by
    unfold goDrop
    rw [if_pos (by omega), hdrop]
  have hb : buildReplace s [] (0, 0)
      (0, (segmentLine seg s.tabSize w line).length - 1) = some [] := by
    simp only [buildReplace, h1, hrow, h3, h4, Option.bind_eq_bind,
      Option.some_bind, Option.some.injEq]
    rw [hline]
    rw [if_neg (by norm_num)]
    simp [sentinelSpan, joinNl]
  obtain ⟨s1, hs1⟩ := saveChanges_isSome hoff
  obtain ⟨k, hk, _, _, hoff1, _, _, _, _, _, _, _⟩ := saveChanges_some hs1
  have hspl2 : (splitLines ([] : List Char)).map
      (segmentLine seg s1.tabSize w) = [[sentinelSpan]] := by
    show [segmentLine seg s1.tabSize w []] = [[sentinelSpan]]
    unfold segmentLine
    rw [segValid_nil hseg]
    rfl
  have hset : setText seg w s1 [] (0, 0) = some { s1 with
      text := []
      spansPerLines := [[sentinelSpan]]
      cursor := (0, 0) } := by
    unfold setText
    simp only [hspl2, getLineCursor_sentinel]
  have hswap : cursorSwap (0, 0)
      (0, (segmentLine seg s.tabSize w line).length - 1) = false :=
    cursorSwap_eq_false_of_le (Or.inr ⟨rfl, Nat.zero_le _⟩)
  have hrep : replaceText seg w s [] (0, 0)
      (0, (segmentLine seg s.tabSize w line).length - 1) = some { s1 with
      text := []
      spansPerLines := [[sentinelSpan]]
      cursor := (0, 0) } := by
    rw [replaceText_of_no_swap hswap]
    simp only [hb, hs1, hset]
  have hoffs2 : (-1 : Int) ≤ ({ s1 with
      text := ([] : List Char)
      spansPerLines := [[sentinelSpan]]
      cursor := ((0 : Nat), (0 : Nat)) } : EditorState).undoOffset := by
    show (-1 : Int) ≤ s1.undoOffset
    rw [hoff1]
    omega
  obtain ⟨s3, hs3⟩ := saveChanges_isSome hoffs2
  obtain ⟨k2, _, _, _, _, htext3, hspl3, hcur3, _, _, _, _⟩ :=
    saveChanges_some hs3
  refine ⟨{ s3 with undoOffset := s3.undoOffset - 1 }, ?_, ?_, ?_, ?_⟩
  · unfold deleteLine
    rw [if_neg (by omega)]
    simp only [hrange, hrep, hs3]
  · show s3.text = []
    rw [htext3]
  · show s3.cursor = (0, 0)
    rw [hcur3]
  · show s3.spansPerLines.length = 1
    rw [hspl3]
    rfl

/-- C8, witness: the one-line document `"ab"` with the cursor at
`(0, 1)`. -/
theorem c8_witness :
    ∃ s', deleteLine charSeg unitWidth
        (mkState ['a', 'b'] (0, 1) Mode.normal 0) = some s' ∧
      s'.text = [] ∧ s'.cursor = (0, 0) ∧ s'.spansPerLines.length = 1 :=
  c8_delete_last_line charSeg unitWidth
    (mkState ['a', 'b'] (0, 1) Mode.normal 0) charSeg_valid rfl
    (by decide) (by decide) (by decide)

/-! ### Claim C10 -/

theorem getText_of_no_swap {s : EditorState} {fr un : Nat × Nat}
    (hswap : cursorSwap fr un = false) :
    getText s fr un =
      match goSlice s.spansPerLines fr.1 (un.1 + 1) with
      | none => none
      | some lns => some (getTextRows lns fr.2 un.2) := by
  unfold getText
  rw [hswap]
  rfl

theorem rowText_take_ends {row : List Span} {u : Nat} {sp : Span}
    (h : row[u]? = some sp) :
    rowText (row.take (u + 1)) = rowText (row.take u) ++ spanText sp := by
  unfold rowText
  rw [List.take_succ, h]
  simp

theorem getTextTail_ends {lns : List (List Span)} {row : List Span} {sp : Span}
    {u : Nat} (hlast : lns.getLast? = some row) (hsp : row[u]? = some sp) :
    ∃ p, getTextTail lns u = p ++ spanText sp := by
  induction lns with
  | nil => simp at hlast
  | cons r rest ih =>
    cases rest with
    | nil =>
      have hr : r = row := by simpa using hlast
      subst hr
      exact ⟨rowText (r.take u), rowText_take_ends hsp⟩
    | cons r2 rest2 =>
      rw [List.getLast?_cons_cons] at hlast
      obtain ⟨p, hp⟩ := ih hlast
      refine ⟨rowText r ++ p, ?_⟩
      show rowText r ++ getTextTail (r2 :: rest2) u = _
      rw [hp, List.append_assoc]

theorem getTextRows_ends {lns : List (List Span)} {row : List Span} {sp : Span}
    {f u : Nat} (hlast : lns.getLast? = some row) (hsp : row[u]? = some sp)
    (hfu : lns.length = 1 → f ≤ u) :
    ∃ p, getTextRows lns f u = p ++ spanText sp := by
  cases lns with
  | nil => simp at hlast
  | cons r rest =>
    cases rest with
    | nil =>
      have hr : r = row := by simpa using hlast
      subst hr
      have hf : f ≤ u := hfu (by simp)
      refine ⟨rowText ((r.drop f).take (u - f)), ?_⟩
      show rowText ((r.drop f).take (u + 1 - f)) = _
      rw [show u + 1 - f = (u - f) + 1 from by omega, List.take_succ]
      rw [show (r.drop f)[u - f]? = some sp from by
        rw [List.getElem?_drop, show f + (u - f) = u from by omega]
        exact hsp]
      unfold rowText
      simp
    | cons r2 rest2 =>
      rw [List.getLast?_cons_cons] at hlast
      obtain ⟨p, hp⟩ := getTextTail_ends hlast hsp
      refine ⟨rowText (r.drop f) ++ p, ?_⟩
      show rowText (r.drop f) ++ getTextTail (r2 :: rest2) u = _
      rw [hp, List.append_assoc]

theorem slice_getLast {α : Type} {l : List α} {a b : Nat} {x : α}
    (h : l[b]? = some x) (hab : a ≤ b) :
    ((l.take (b + 1)).drop a).getLast? = some x := by
  have hb : b < l.length := (List.getElem?_eq_some.mp h).1
  rw [List.getLast?_eq_getElem?]
  have hlen : ((l.take (b + 1)).drop a).length = b + 1 - a := by
    rw [List.length_drop, List.length_take]
    omega
  rw [hlen, List.getElem?_drop, List.getElem?_take, if_pos (by omega),
    show a + (b + 1 - a - 1) = b from by omega]
  exact h

/-- C10.  CONFIRMED: `GetText` is until-inclusive while `ReplaceText` is
until-exclusive.  For an ordered valid cursor pair, `GetText(from,
until)` ends with the text of the span at `until` (its cluster, or a
newline when `until` is the sentinel slot), whereas the document
produced by `ReplaceText(s, from, until)` still contains the cluster at
`until`, placed immediately after the inserted text. -/
theorem c10_gettext_inclusive_replacetext_exclusive
    (seg : List Char → List (List Char)) (w : List Char → Nat)
    (s : EditorState) (fr un : Nat × Nat) (row : List Span) (sp : Span)
    (horder : cursorLe fr un)
    (hrow : s.spansPerLines[un.1]? = some row)
    (hsp : row[un.2]? = some sp) :
    (∃ p, getText s fr un = some (p ++ spanText sp)) ∧
    (∀ ins s', replaceText seg w s ins fr un = some s' →
      ∃ a b, s'.text = a ++ (ins ++ (sp.runes ++ b))) := by
  have hswap : cursorSwap fr un = false := cursorSwap_eq_false_of_le horder
  have hlt : un.1 < s.spansPerLines.length := (List.getElem?_eq_some.mp hrow).1
  have hfr1 : fr.1 ≤ un.1 := by
    rcases horder with h | ⟨h, _⟩ <;> omega
  constructor
  · have hslice : goSlice s.spansPerLines fr.1 (un.1 + 1) =
        some ((s.spansPerLines.take (un.1 + 1)).drop fr.1) := by
      unfold goSlice
      rw [if_pos ⟨by omega, by omega⟩]
    have hlast : ((s.spansPerLines.take (un.1 + 1)).drop fr.1).getLast? =
        some row := slice_getLast hrow hfr1
    have hfu : ((s.spansPerLines.take (un.1 + 1)).drop fr.1).length = 1 →
        fr.2 ≤ un.2 := by
      intro h1
      rw [List.length_drop, List.length_take] at h1
      have : fr.1 = un.1 := by omega
      rcases horder with h | ⟨_, h⟩
      · omega
      · exact h
    obtain ⟨p, hp⟩ := getTextRows_ends hlast hsp hfu
    rw [getText_of_no_swap hswap]
    simp only [hslice]
    exact ⟨p, by rw [hp]⟩
  · intro ins s' hrep
    rw [replaceText_of_no_swap hswap] at hrep
    cases hbr : buildReplace s ins fr un with
    | none =>
      simp only [hbr] at hrep
      exact absurd hrep (by simp)
    | some b =>
      simp only [hbr] at hrep
      cases hsc : saveChanges s with
      | none =>
        simp only [hsc] at hrep
        exact absurd hrep (by simp)
      | some s1 =>
        simp only [hsc] at hrep
        have htext : s'.text = b := (setText_some hrep).1
        have hun2 : un.2 < row.length := (List.getElem?_eq_some.mp hsp).1
        have hdrop : row.drop un.2 = sp :: row.drop (un.2 + 1) := by
          rw [List.drop_eq_getElem_cons hun2]
          congr 1
          exact ((List.getElem?_eq_some.mp hsp).2)
        simp only [buildReplace, Option.bind_eq_bind, Option.bind_eq_some,
          Option.some.injEq] at hbr
        obtain ⟨left, hleft, fromRow, hfromRow, pre, hpre, untilRow,
          huntilRow, suf, hsuf, hb⟩ := hbr
        have huntil : untilRow = row := by
          rw [hrow] at huntilRow
          exact (Option.some_inj.mp huntilRow).symm
        have hsufval : suf = sp :: row.drop (un.2 + 1) := by
          unfold goDrop at hsuf
          split at hsuf
          · rw [huntil] at hsuf
            rw [← Option.some_inj.mp hsuf, hdrop]
          · exact absurd hsuf (by simp)
        refine ⟨(left.map (· ++ ['\n'])).flatten ++ (pre.map (·.runes)).flatten,
          ((row.drop (un.2 + 1)).map (·.runes)).flatten ++
            (if (un.1 : Int) < ((splitLines s.text).length : Int) - 1
              then ['\n'] else []) ++
            joinNl ((splitLines s.text).drop (un.1 + 1)), ?_⟩
        rw [htext, ← hb, hsufval]
        simp [List.append_assoc]

/-- C10, witness: `"foo\nbar"` with `from = (0, 1)` and `until = (1, 1)`
(the span at `until` is the cluster `a` of `"bar"`). -/
theorem c10_witness :
    (∃ p, getText (mkState ('f' :: 'o' :: 'o' :: '\n' :: 'b' :: 'a' :: 'r' :: [])
        (0, 0) Mode.normal 0) (0, 1) (1, 1) =
      some (p ++ spanText ⟨['a'], 1, 1⟩)) ∧
    (∀ ins s', replaceText charSeg unitWidth
        (mkState ('f' :: 'o' :: 'o' :: '\n' :: 'b' :: 'a' :: 'r' :: [])
          (0, 0) Mode.normal 0) ins (0, 1) (1, 1) = some s' →
      ∃ a b, s'.text = a ++ (ins ++ ((⟨['a'], 1, 1⟩ : Span).runes ++ b))) :=
  c10_gettext_inclusive_replacetext_exclusive charSeg unitWidth
    (mkState ('f' :: 'o' :: 'o' :: '\n' :: 'b' :: 'a' :: 'r' :: [])
      (0, 0) Mode.normal 0)
    (0, 1) (1, 1) (segmentLine charSeg 4 unitWidth ('b' :: 'a' :: 'r' :: []))
    ⟨['a'], 1, 1⟩ (Or.inl (by decide)) (by decide) (by decide)

end Sqluy
